import Mathlib

/-!
Shallow embedding of the Tic Tac Toe game logic of
src/tic_tac_toe_frontend/src/App.js, together with proofs of the spec's
claims about it.

The React component keeps six pieces of state (board, isXNext, winner,
winningLine, isTie, lastMove) that are all rebound together inside each
event handler, so we model a call to a handler as a pure function from a
GameState aggregate to a new GameState.  JavaScript cell values
'' | 'X' | 'O' become the Cell enumeration (the empty string is the only
falsy cell value, captured by cellTruthy below).
-/

namespace TicTacToe

/-- A board cell: the JS strings (empty), X and O. -/
inductive Cell : Type
  | Empty : Cell
  | X : Cell
  | O : Cell
deriving DecidableEq

/-- JS truthiness of a cell value: only the empty string is falsy. -/
def cellTruthy : Cell → Bool
  | Cell.Empty => false
  | _ => true

/-- JS truthiness of the winner variable ('X' | 'O' | null): null is falsy,
a string is truthy iff nonempty. -/
def winnerTruthy : Option Cell → Bool
  | none => false
  | some c => cellTruthy c

/-- The board: 9 cells, indexed 0..8 (the JS array of 9 strings). -/
abbrev Board := Fin 9 → Cell

/-- One winning line, as the triple of destructured indices a, b, c. -/
abbrev Triple := Fin 9 × Fin 9 × Fin 9

/-- The 8 fixed winning lines of calculateWinner, in source order:
3 rows, then 3 columns, then 2 diagonals. -/
def winLines : List Triple :=
  [(0, 1, 2), (3, 4, 5), (6, 7, 8),
   (0, 3, 6), (1, 4, 7), (2, 5, 8),
   (0, 4, 8), (2, 4, 6)]

/-- The line as the JS array [a, b, c]. -/
def tripleList (t : Triple) : List (Fin 9) := [t.1, t.2.1, t.2.2]

/-- The return value of calculateWinner:
{winner: 'X'|'O'|null, line: [indexes]|[]}. -/
structure WinResult where
  winner : Option Cell
  line : List (Fin 9)
deriving DecidableEq

/-- The test in calculateWinner's loop body:
squares[a] && squares[a] === squares[b] && squares[a] === squares[c]. -/
def lineWins (squares : Board) (t : Triple) : Prop :=
  squares t.1 ≠ Cell.Empty ∧ squares t.1 = squares t.2.1 ∧ squares t.1 = squares t.2.2

instance (squares : Board) (t : Triple) : Decidable (lineWins squares t) := by
  unfold lineWins; infer_instance

/-- The for-loop of calculateWinner over the remaining lines: return at the
first line that wins, fall through to {winner: null, line: []}. -/
def calculateWinnerAux (squares : Board) : List Triple → WinResult
  | [] => { winner := none, line := [] }
  | t :: rest =>
    if lineWins squares t then { winner := some (squares t.1), line := tripleList t }
    else calculateWinnerAux squares rest

/-- calculateWinner(squares) of App.js. -/
def calculateWinner (squares : Board) : WinResult :=
  calculateWinnerAux squares winLines

/-- nextBoard.every((cell) => cell !== "") of handleSquareClick. -/
def boardFull (b : Board) : Prop := ∀ i : Fin 9, b i ≠ Cell.Empty

instance (b : Board) : Decidable (boardFull b) := by
  unfold boardFull; infer_instance

/-- The aggregate of the six useState variables of App. -/
structure GameState where
  board : Board
  isXNext : Bool
  winner : Option Cell
  winningLine : List (Fin 9)
  isTie : Bool
  lastMove : Option (Fin 9)
deriving DecidableEq

/-- The useState initial values: Array(9).fill(""), true, null, [], false, null. -/
def initialState : GameState :=
  { board := fun _ => Cell.Empty
    isXNext := true
    winner := none
    winningLine := []
    isTie := false
    lastMove := none }

/-- The copied-and-updated board of handleSquareClick:
nextBoard = board.slice(); nextBoard[idx] = isXNext ? "X" : "O". -/
def nextBoardOf (s : GameState) (idx : Fin 9) : Board :=
  Function.update s.board idx (if s.isXNext then Cell.X else Cell.O)

/-- handleSquareClick(idx) of App.js as a state transformer.  The guard
`board[idx] !== "" || winner` returns the state unchanged; otherwise all
setters of the taken branch are applied at once.  Note that setIsXNext(!isXNext)
runs on every accepted click, and that the tie branch does not touch
winningLine. -/
def handleSquareClick (s : GameState) (idx : Fin 9) : GameState :=
  if s.board idx ≠ Cell.Empty ∨ winnerTruthy s.winner = true then s
  else if winnerTruthy (calculateWinner (nextBoardOf s idx)).winner = true then
    { board := nextBoardOf s idx
      isXNext := !s.isXNext
      winner := (calculateWinner (nextBoardOf s idx)).winner
      winningLine := (calculateWinner (nextBoardOf s idx)).line
      isTie := false
      lastMove := some idx }
  else if boardFull (nextBoardOf s idx) then
    { board := nextBoardOf s idx
      isXNext := !s.isXNext
      winner := none
      winningLine := s.winningLine
      isTie := true
      lastMove := some idx }
  else
    { board := nextBoardOf s idx
      isXNext := !s.isXNext
      winner := none
      winningLine := []
      isTie := false
      lastMove := some idx }

/-- handleReset of App.js: rebind every state variable to its initial value. -/
def handleReset (_s : GameState) : GameState :=
  { board := fun _ => Cell.Empty
    isXNext := true
    winner := none
    winningLine := []
    isTie := false
    lastMove := none }

/-- The spec's Outcome type: InProgress, Win(mark, line) or Tie. -/
inductive Outcome : Type
  | InProgress : Outcome
  | Win : Cell → List (Fin 9) → Outcome
  | Tie : Outcome
deriving DecidableEq

/-- The spec's OutcomeEvaluator, assembled from the source's calculateWinner
and full-board check exactly as handleSquareClick branches on them. -/
def evaluate (b : Board) : Outcome :=
  match (calculateWinner b).winner with
  | some w => Outcome.Win w (calculateWinner b).line
  | none => if boardFull b then Outcome.Tie else Outcome.InProgress

/-- The outcome stored in a state, read off the winner / winningLine / isTie
variables. -/
def storedOutcome (s : GameState) : Outcome :=
  match s.winner with
  | some w => Outcome.Win w s.winningLine
  | none => if s.isTie then Outcome.Tie else Outcome.InProgress

/-- The states reachable from page load through the two entry points. -/
inductive Reachable : GameState → Prop
  | init : Reachable initialState
  | step (s : GameState) (idx : Fin 9) : Reachable s → Reachable (handleSquareClick s idx)
  | reset (s : GameState) : Reachable s → Reachable (handleReset s)

/-- The maintained invariant: winner, winningLine and isTie are exactly what
recomputation from the current board yields. -/
def Inv (s : GameState) : Prop :=
  s.winner = (calculateWinner s.board).winner ∧
  s.winningLine = (calculateWinner s.board).line ∧
  (s.isTie = true ↔ ((calculateWinner s.board).winner = none ∧ boardFull s.board))

instance (s : GameState) : Decidable (Inv s) := by
  unfold Inv; infer_instance

/-- A cell is truthy exactly when it is not the empty string. -/
theorem cellTruthy_eq_true_iff (c : Cell) : cellTruthy c = true ↔ c ≠ Cell.Empty := by
  cases c <;> simp [cellTruthy]

/-- The loop never reports the empty string as the winner: the returned mark
passed the truthiness test squares[a]. -/
theorem calcAux_winner_ne_empty (b : Board) (L : List Triple) :
    (calculateWinnerAux b L).winner ≠ some Cell.Empty := by
  induction L with
  | nil => simp [calculateWinnerAux]
  | cons hd tl ih =>
    by_cases hw : lineWins b hd
    · simp only [calculateWinnerAux, if_pos hw]
      intro h
      exact hw.1 (Option.some.injEq _ _ ▸ h)
    · simpa only [calculateWinnerAux, if_neg hw] using ih

/-- When the loop falls through with winner null, the returned line is []. -/
theorem calcAux_none_line (b : Board) (L : List Triple)
    (h : (calculateWinnerAux b L).winner = none) :
    (calculateWinnerAux b L).line = [] := by
  induction L with
  | nil => rfl
  | cons hd tl ih =>
    by_cases hw : lineWins b hd
    · simp [calculateWinnerAux, if_pos hw] at h
    · simp only [calculateWinnerAux, if_neg hw] at h ⊢
      exact ih h

/-- The winner field of calculateWinner is falsy exactly when it is null. -/
theorem calcWinner_truthy_false_iff (b : Board) :
    winnerTruthy (calculateWinner b).winner = false ↔ (calculateWinner b).winner = none := by
  cases hw : (calculateWinner b).winner with
  | none => simp [winnerTruthy]
  | some c =>
    have hc : c ≠ Cell.Empty := by
      intro h
      exact calcAux_winner_ne_empty b winLines (by rw [calculateWinner] at hw; rw [hw, h])
    simp only [winnerTruthy]
    constructor
    · intro h
      exact absurd ((cellTruthy_eq_true_iff c).mpr hc) (by simp [h])
    · intro h
      exact absurd h (by simp)

/-- The invariant holds at the initial state. -/
theorem inv_init : Inv initialState := by decide

/-- One accepted or rejected click preserves the invariant. -/
theorem inv_step (s : GameState) (idx : Fin 9) (h : Inv s) :
    Inv (handleSquareClick s idx) := by
  by_cases hg : s.board idx ≠ Cell.Empty ∨ winnerTruthy s.winner = true
  · rw [handleSquareClick, if_pos hg]
    exact h
  · rw [handleSquareClick, if_neg hg]
    by_cases hw : winnerTruthy (calculateWinner (nextBoardOf s idx)).winner = true
    · rw [if_pos hw]
      refine ⟨rfl, rfl, ?_⟩
      constructor
      · intro hfalse
        exact absurd hfalse (by simp)
      · rintro ⟨hn, -⟩
        rw [hn] at hw
        simp [winnerTruthy] at hw
    · rw [if_neg hw]
      have hnone : (calculateWinner (nextBoardOf s idx)).winner = none :=
        (calcWinner_truthy_false_iff _).mp (Bool.eq_false_iff.mpr hw)
      have hline : (calculateWinner (nextBoardOf s idx)).line = [] :=
        calcAux_none_line _ _ hnone
      by_cases hf : boardFull (nextBoardOf s idx)
      · rw [if_pos hf]
        have hsW : winnerTruthy s.winner = false := by
          rcases Bool.eq_false_or_eq_true (winnerTruthy s.winner) with h1 | h0
          · exact absurd (Or.inr h1) hg
          · exact h0
        have hcalcNone : (calculateWinner s.board).winner = none := by
          rw [h.1] at hsW
          exact (calcWinner_truthy_false_iff s.board).mp hsW
        have hsLine : s.winningLine = [] := by
          rw [h.2.1]
          exact calcAux_none_line _ _ hcalcNone
        refine ⟨hnone.symm, ?_, ?_⟩
        · rw [hsLine, hline]
        · simp [hnone, hf]
      · rw [if_neg hf]
        refine ⟨hnone.symm, hline.symm, ?_⟩
        simp [hnone, hf]

/-- Reset reestablishes the invariant outright. -/
theorem inv_reset (s : GameState) : Inv (handleReset s) := inv_init

/-- Every reachable state satisfies the invariant. -/
theorem reachable_inv (s : GameState) (h : Reachable s) : Inv s := by
  induction h with
  | init => exact inv_init
  | step t idx _ ih => exact inv_step t idx ih
  | reset t _ _ => exact inv_reset t

/-- The loop of calculateWinner returns the first line that wins: there is a
decomposition of the scanned list into a losing prefix, the winning line that
is returned, and a remainder the loop never reaches. -/
theorem calcAux_first_win (b : Board) (L : List Triple)
    (h : ∃ t ∈ L, lineWins b t) :
    ∃ l₁ t l₂, L = l₁ ++ t :: l₂ ∧ (∀ u ∈ l₁, ¬ lineWins b u) ∧ lineWins b t ∧
      calculateWinnerAux b L = { winner := some (b t.1), line := tripleList t } := by
  induction L with
  | nil => simp at h
  | cons hd tl ih =>
    by_cases hw : lineWins b hd
    · exact ⟨[], hd, tl, rfl, by simp, hw, by simp [calculateWinnerAux, if_pos hw]⟩
    · obtain ⟨t, ht, htw⟩ := h
      rcases List.mem_cons.mp ht with rfl | htl
      · exact absurd htw hw
      · obtain ⟨l₁, t', l₂, heq, hall, htw', hres⟩ := ih ⟨t, htl, htw⟩
        refine ⟨hd :: l₁, t', l₂, by rw [heq]; rfl, ?_, htw', ?_⟩
        · intro u hu
          rcases List.mem_cons.mp hu with rfl | hu'
          · exact hw
          · exact hall u hu'
        · rw [calculateWinnerAux, if_neg hw]
          exact hres

/-- A concrete board from a JS-style literal list of 9 cells. -/
def ofList (l : List Cell) : Board := fun i => l.getD i.val Cell.Empty

/-- A pathological board on which two lines win at once: [0,1,2] for X and
[3,4,5] for O. -/
def pathologicalBoard : Board :=
  ofList [Cell.X, Cell.X, Cell.X, Cell.O, Cell.O, Cell.O, Cell.Empty, Cell.Empty, Cell.Empty]

/-- The state after X's opening click on cell 0. -/
def xFirstState : GameState := handleSquareClick initialState 0

/-- The state after clicks 0, 3, 1, 4: X holds 0 and 1, O holds 3 and 4,
X to move, game in progress. -/
def winSetupState : GameState :=
  handleSquareClick (handleSquareClick (handleSquareClick (handleSquareClick
    initialState 0) 3) 1) 4

/-- The state after X completes the top row from winSetupState: Win(X, [0,1,2]). -/
def winState : GameState := handleSquareClick winSetupState 2

/-- The state after the tying sequence X:0 O:1 X:2 O:4 X:3 O:6 X:5 O:8 X:7:
a full board with no winning line. -/
def tieState : GameState :=
  handleSquareClick (handleSquareClick (handleSquareClick (handleSquareClick
    (handleSquareClick (handleSquareClick (handleSquareClick (handleSquareClick
      (handleSquareClick initialState 0) 1) 2) 4) 3) 6) 5) 8) 7


/-- Reading InProgress off the stored variables forces winner null and a
false tie flag. -/
theorem storedOutcome_inprogress (s : GameState)
    (h : storedOutcome s = Outcome.InProgress) : s.winner = none ∧ s.isTie = false := by
  cases hw : s.winner with
  | some w => simp [storedOutcome, hw] at h
  | none =>
    cases ht : s.isTie with
    | true => simp [storedOutcome, hw, ht] at h
    | false => exact ⟨rfl, rfl⟩

/-- An accepted click (empty cell, falsy winner) always runs
setIsXNext(!isXNext), in all three outcome branches. -/
theorem accepted_flips_isXNext (s : GameState) (idx : Fin 9)
    (hcell : s.board idx = Cell.Empty) (hw : winnerTruthy s.winner = false) :
    (handleSquareClick s idx).isXNext = !s.isXNext := by
  rw [handleSquareClick, if_neg (by simp [hcell, hw])]
  by_cases h1 : winnerTruthy (calculateWinner (nextBoardOf s idx)).winner = true
  · rw [if_pos h1]
  · rw [if_neg h1]
    by_cases h2 : boardFull (nextBoardOf s idx)
    · rw [if_pos h2]
    · rw [if_neg h2]

/-- C1: on every board where at least one of the 8 fixed triples has all
three cells equal and non-Empty, calculateWinner returns that triple's mark
as the winner together with the first matching triple in the fixed scan
order as the line: the scanned list splits into a prefix of non-winning
triples, the returned triple, and an unvisited remainder. -/
theorem calculateWinner_first_matching_triple (b : Board)
    (h : ∃ t ∈ winLines, lineWins b t) :
    ∃ l₁ t l₂, winLines = l₁ ++ t :: l₂ ∧ (∀ u ∈ l₁, ¬ lineWins b u) ∧ lineWins b t ∧
      calculateWinner b = { winner := some (b t.1), line := tripleList t } :=
  calcAux_first_win b winLines h

/-- C1 witness at the pathological board X X X / O O O / _ _ _, where two
triples match simultaneously. -/
theorem calculateWinner_first_matching_triple_witness :
    (∃ t ∈ winLines, lineWins pathologicalBoard t) ∧
    (∃ l₁ t l₂, winLines = l₁ ++ t :: l₂ ∧ (∀ u ∈ l₁, ¬ lineWins pathologicalBoard u) ∧
      lineWins pathologicalBoard t ∧
      calculateWinner pathologicalBoard =
        { winner := some (pathologicalBoard t.1), line := tripleList t }) :=
  ⟨by decide, calculateWinner_first_matching_triple pathologicalBoard (by decide)⟩

/-- C2 counterexample: from the reachable in-progress state winSetupState
(X on 0 and 1, O on 3 and 4, X to move), the accepted click on the empty
cell 2 yields the Win outcome, yet isXNext has changed from true to false:
setIsXNext(!isXNext) runs on every accepted click, before the outcome is
known, so currentTurn is NOT left unchanged on a Win. -/
theorem place_win_changes_turn_cex :
    winSetupState.board 2 = Cell.Empty ∧
    storedOutcome winSetupState = Outcome.InProgress ∧
    winSetupState.isXNext = true ∧
    storedOutcome (handleSquareClick winSetupState 2) =
      Outcome.Win Cell.X [0, 1, 2] ∧
    (handleSquareClick winSetupState 2).isXNext = false := by decide

/-- C2 (amended): for every accepted place (index cell Empty and outcome
InProgress before the call), currentTurn flips to the other mark whatever
the recomputed outcome is — also when it is Win or Tie. -/
theorem place_accepted_flips_turn (s : GameState) (idx : Fin 9)
    (hcell : s.board idx = Cell.Empty)
    (hprog : storedOutcome s = Outcome.InProgress) :
    (handleSquareClick s idx).isXNext = !s.isXNext :=
  accepted_flips_isXNext s idx hcell
    (by simp [winnerTruthy, (storedOutcome_inprogress s hprog).1])

/-- C2 witness: the amended flip at the opening move. -/
theorem place_accepted_flips_turn_witness :
    initialState.board 0 = Cell.Empty ∧
    storedOutcome initialState = Outcome.InProgress ∧
    (handleSquareClick initialState 0).isXNext = !initialState.isXNext :=
  ⟨by decide, by decide,
    place_accepted_flips_turn initialState 0 (by decide) (by decide)⟩

/-- C3: after an accepted place, when calculateWinner reports no winner the
stored outcome is Tie exactly if the new board is full, and InProgress if
some cell is still Empty. -/
theorem place_no_winner_outcome (s : GameState) (idx : Fin 9)
    (hcell : s.board idx = Cell.Empty)
    (hprog : storedOutcome s = Outcome.InProgress)
    (hnw : (calculateWinner (handleSquareClick s idx).board).winner = none) :
    (boardFull (handleSquareClick s idx).board →
      storedOutcome (handleSquareClick s idx) = Outcome.Tie) ∧
    (¬ boardFull (handleSquareClick s idx).board →
      storedOutcome (handleSquareClick s idx) = Outcome.InProgress) := by
  obtain ⟨hw, -⟩ := storedOutcome_inprogress s hprog
  have hacc : ¬(s.board idx ≠ Cell.Empty ∨ winnerTruthy s.winner = true) := by
    simp [hcell, hw, winnerTruthy]
  rw [handleSquareClick, if_neg hacc] at hnw ⊢
  by_cases h1 : winnerTruthy (calculateWinner (nextBoardOf s idx)).winner = true
  · rw [if_pos h1] at hnw ⊢
    have hnw' : (calculateWinner (nextBoardOf s idx)).winner = none := hnw
    rw [hnw'] at h1
    simp [winnerTruthy] at h1
  · rw [if_neg h1] at hnw ⊢
    by_cases h2 : boardFull (nextBoardOf s idx)
    · rw [if_pos h2] at hnw ⊢
      constructor
      · intro _
        rfl
      · intro hnf
        exact absurd h2 hnf
    · rw [if_neg h2] at hnw ⊢
      constructor
      · intro hf
        exact absurd hf h2
      · intro _
        rfl

/-- C3 witness at the opening move: no winner, board not yet full, stored
outcome InProgress. -/
theorem place_no_winner_outcome_witness :
    initialState.board 0 = Cell.Empty ∧
    storedOutcome initialState = Outcome.InProgress ∧
    (calculateWinner (handleSquareClick initialState 0).board).winner = none ∧
    ((boardFull (handleSquareClick initialState 0).board →
      storedOutcome (handleSquareClick initialState 0) = Outcome.Tie) ∧
     (¬ boardFull (handleSquareClick initialState 0).board →
      storedOutcome (handleSquareClick initialState 0) = Outcome.InProgress)) :=
  ⟨by decide, by decide, by decide,
    place_no_winner_outcome initialState 0 (by decide) (by decide) (by decide)⟩

/-- C4: clicking an already-occupied cell leaves the whole state — board,
turn, winner, winningLine, isTie and lastMove — unchanged, whatever the
rest of the state is. -/
theorem place_occupied_noop (s : GameState) (idx : Fin 9)
    (h : s.board idx ≠ Cell.Empty) :
    handleSquareClick s idx = s := by
  rw [handleSquareClick, if_pos (Or.inl h)]

/-- C4 witness: clicking cell 0 again right after X took it. -/
theorem place_occupied_noop_witness :
    xFirstState.board 0 ≠ Cell.Empty ∧
    handleSquareClick xFirstState 0 = xFirstState :=
  ⟨by decide, place_occupied_noop xFirstState 0 (by decide)⟩

/-- C5: in a reachable state whose outcome is Win or Tie, every click is a
no-op on the whole state: a Win blocks via the winner guard, a Tie blocks
because the board is full so every cell is occupied. -/
theorem place_terminal_noop (s : GameState) (idx : Fin 9)
    (hr : Reachable s) (h : storedOutcome s ≠ Outcome.InProgress) :
    handleSquareClick s idx = s := by
  have hinv := reachable_inv s hr
  cases hw : s.winner with
  | some w =>
    have hwne : w ≠ Cell.Empty := by
      intro he
      have hsome : (calculateWinner s.board).winner = some Cell.Empty := by
        rw [← hinv.1, hw, he]
      exact calcAux_winner_ne_empty s.board winLines hsome
    have htr : winnerTruthy s.winner = true := by
      rw [hw]
      exact (cellTruthy_eq_true_iff w).mpr hwne
    rw [handleSquareClick, if_pos (Or.inr htr)]
  | none =>
    have hti : s.isTie = true := by
      cases ht : s.isTie with
      | false => exact absurd (by simp [storedOutcome, hw, ht]) h
      | true => rfl
    have hfull : boardFull s.board := (hinv.2.2.mp hti).2
    rw [handleSquareClick, if_pos (Or.inl (hfull idx))]

/-- C5 witness: clicking the empty cell 5 in the reachable won state
Win(X, [0,1,2]) changes nothing. -/
theorem place_terminal_noop_witness :
    storedOutcome winState ≠ Outcome.InProgress ∧
    handleSquareClick winState 5 = winState :=
  ⟨by decide, place_terminal_noop winState 5
    (Reachable.step winSetupState 2 (Reachable.step _ 4 (Reachable.step _ 1
      (Reachable.step _ 3 (Reachable.step _ 0 Reachable.init)))))
    (by decide)⟩

/-- C6: reset from any state yields exactly the initial GameState, and every
component is reset: all cells Empty, X to move, no winner, empty winning
line, no tie, no last move. -/
theorem reset_yields_initial (s : GameState) :
    handleReset s = initialState ∧
    (∀ i : Fin 9, (handleReset s).board i = Cell.Empty) ∧
    (handleReset s).isXNext = true ∧
    (handleReset s).winner = none ∧
    (handleReset s).winningLine = [] ∧
    (handleReset s).isTie = false ∧
    (handleReset s).lastMove = none :=
  ⟨rfl, fun _ => rfl, rfl, rfl, rfl, rfl, rfl⟩

/-- C7: in every reachable state — initial, after any click, after any
reset — the stored outcome equals what the evaluator returns on the current
board: it is never stale. -/
theorem outcome_never_stale (s : GameState) (hr : Reachable s) :
    storedOutcome s = evaluate s.board := by
  have hinv := reachable_inv s hr
  cases hcw : (calculateWinner s.board).winner with
  | some w =>
    have hw : s.winner = some w := by rw [hinv.1, hcw]
    simp [storedOutcome, evaluate, hw, hcw, hinv.2.1]
  | none =>
    have hw : s.winner = none := by rw [hinv.1, hcw]
    by_cases hf : boardFull s.board
    · have ht : s.isTie = true := hinv.2.2.mpr ⟨hcw, hf⟩
      simp [storedOutcome, evaluate, hw, hcw, ht, hf]
    · have ht : s.isTie = false := by
        cases hti : s.isTie with
        | false => rfl
        | true => exact absurd (hinv.2.2.mp hti).2 hf
      simp [storedOutcome, evaluate, hw, hcw, ht, hf]

/-- C7 witness at the initial state. -/
theorem outcome_never_stale_witness :
    storedOutcome initialState = evaluate initialState.board :=
  outcome_never_stale initialState Reachable.init

/-- C8: X moves first in the initial state, and every accepted place whose
recomputed outcome is InProgress flips the turn to the other mark. -/
theorem initial_turn_and_alternation :
    initialState.isXNext = true ∧
    ∀ (s : GameState) (idx : Fin 9),
      s.board idx = Cell.Empty → winnerTruthy s.winner = false →
      storedOutcome (handleSquareClick s idx) = Outcome.InProgress →
      (handleSquareClick s idx).isXNext = !s.isXNext :=
  ⟨rfl, fun s idx hcell hw _ => accepted_flips_isXNext s idx hcell hw⟩

/-- C8 witness: the opening click on cell 0 flips the turn from X to O. -/
theorem initial_turn_and_alternation_witness :
    initialState.board 0 = Cell.Empty ∧
    winnerTruthy initialState.winner = false ∧
    storedOutcome (handleSquareClick initialState 0) = Outcome.InProgress ∧
    (handleSquareClick initialState 0).isXNext = !initialState.isXNext :=
  ⟨by decide, by decide, by decide,
    initial_turn_and_alternation.2 initialState 0 (by decide) (by decide) (by decide)⟩

/-- C9: in every reachable state, a true tie flag entails a fully occupied
board, which is why the guard of handleSquareClick need not test isTie. -/
theorem tie_implies_board_full (s : GameState) (hr : Reachable s)
    (ht : s.isTie = true) : boardFull s.board :=
  ((reachable_inv s hr).2.2.mp ht).2

/-- C9 witness: the reachable tied state of the sequence
X:0 O:1 X:2 O:4 X:3 O:6 X:5 O:8 X:7 has a full board. -/
theorem tie_implies_board_full_witness :
    tieState.isTie = true ∧ boardFull tieState.board :=
  ⟨by decide, tie_implies_board_full tieState
    (Reachable.step _ 7 (Reachable.step _ 8 (Reachable.step _ 5 (Reachable.step _ 6
      (Reachable.step _ 3 (Reachable.step _ 4 (Reachable.step _ 2 (Reachable.step _ 1
        (Reachable.step _ 0 Reachable.init)))))))))
    (by decide)⟩

/-- C10: in every reachable state a truthy winner and a true tie flag never
hold together, and a nonempty winningLine entails a non-null winner. -/
theorem win_tie_mutually_exclusive (s : GameState) (hr : Reachable s) :
    (¬ (winnerTruthy s.winner = true ∧ s.isTie = true)) ∧
    (s.winningLine ≠ [] → s.winner ≠ none) := by
  have hinv := reachable_inv s hr
  constructor
  · rintro ⟨hw, ht⟩
    have hn : (calculateWinner s.board).winner = none := (hinv.2.2.mp ht).1
    rw [hinv.1, hn] at hw
    simp [winnerTruthy] at hw
  · intro hl hw
    have hn : (calculateWinner s.board).winner = none := by rw [← hinv.1]; exact hw
    exact hl (by rw [hinv.2.1]; exact calcAux_none_line _ _ hn)

/-- C10 witness at the reachable won state Win(X, [0,1,2]). -/
theorem win_tie_mutually_exclusive_witness :
    (¬ (winnerTruthy winState.winner = true ∧ winState.isTie = true)) ∧
    (winState.winningLine ≠ [] → winState.winner ≠ none) :=
  win_tie_mutually_exclusive winState
    (Reachable.step winSetupState 2 (Reachable.step _ 4 (Reachable.step _ 1
      (Reachable.step _ 3 (Reachable.step _ 0 Reachable.init)))))

end TicTacToe
